import Mathlib

/-!
Shallow embedding of the `AIDiscoveryFHE` Solidity contract
(batch lifecycle and oracle-mediated decryption protocol).

Modelling conventions:
* `Addr` (Solidity `address`) is `Nat`; `0` is the zero address.
* `euint32` ciphertext handles are symbolic terms (`EH`): the external FHE
  library's operations (`asEuint32`, `add`, `mul`, `div`) are constructors,
  and `isInitialized` is false exactly for the uninitialized handle.
* `bytes32` digests are symbolic (`B32`): `B32.zero` is the default
  `bytes32(0)` of an absent storage slot, and `B32.hashCts cts self` is
  `keccak256(abi.encode(ctsAsBytes, address(this)))` — in particular a
  computed keccak digest is never the zero word.
* Solidity mappings are total functions with the Solidity default value.
* Every external function takes the caller (`msg.sender`) and, where the
  source reads `block.timestamp`, the current time; it returns
  `Except Err (ContractState × List Event)`.  An `.error` result models a
  revert: the transaction's state changes are rolled back, so no new state
  is produced.
* The oracle-supplied inputs — the `requestId` returned by
  `FHE.requestDecryption` and the verdict of `FHE.checkSignatures` — are
  parameters (`requestId : Nat`, `checkSigs : Nat → Bytes → Bytes → Bool`).
* `uint256` is `Nat`; the quantities involved (timestamps, counters) never
  approach `2^256`, so checked-overflow reverts are not modelled.
-/

namespace AIDiscoveryFHE

abbrev Addr := Nat

abbrev Timestamp := Nat

/-- `bytes` payloads (cleartexts, proofs) as lists of words. -/
abbrev Bytes := List Nat

/-- Symbolic `euint32` ciphertext handle. -/
inductive EH
  | uninit
  | lit (n : Nat)
  | add (a b : EH)
  | mul (a b : EH)
  | div (a b : EH)
  deriving DecidableEq, Repr

/-- `FHE.isInitialized`: false only for the uninitialized handle. -/
def EH.isInitCk : EH → Bool
  | .uninit => false
  | _ => true

/-- Symbolic `bytes32`. -/
inductive B32
  | zero
  | hashCts (cts : List EH) (self : Addr)
  deriving DecidableEq, Repr

/-- The contract's custom errors. -/
inductive Err
  | NotOwner
  | NotProvider
  | Paused
  | CooldownActive
  | InvalidBatch
  | InvalidParameter
  | ReplayDetected
  | StateMismatch
  | InvalidProof
  | NotInitialized
  deriving DecidableEq, Repr

structure DecryptionContext where
  batchId : Nat
  stateHash : B32
  processed : Bool
  deriving DecidableEq, Repr

/-- The contract's events. -/
inductive Event
  | OwnershipTransferred (previousOwner newOwner : Addr)
  | ProviderAdded (provider : Addr)
  | ProviderRemoved (provider : Addr)
  | PauseToggled (isPaused : Bool)
  | CooldownSecondsSet (oldCooldown newCooldown : Nat)
  | BatchOpened (batchId : Nat)
  | BatchClosed (batchId : Nat)
  | DataSubmitted (provider : Addr) (batchId : Nat) (count : Nat)
  | DecryptionRequested (requestId batchId : Nat)
  | DecryptionCompleted (requestId batchId result : Nat)
  deriving DecidableEq, Repr

/-- Contract storage, plus `self = address(this)` (fixed at deployment). -/
structure ContractState where
  self : Addr
  owner : Addr
  isProvider : Addr → Bool
  paused : Bool
  cooldownSeconds : Nat
  lastSubmissionTime : Addr → Timestamp
  lastDecryptionRequestTime : Addr → Timestamp
  currentBatchId : Nat
  isBatchOpen : Nat → Bool
  encryptedDataBatches : Nat → List EH
  decryptionContexts : Nat → DecryptionContext

/-- Pointwise update of a mapping (Solidity `m[k] = v`). -/
def updF {α β : Type} [DecidableEq α] (f : α → β) (a : α) (b : β) : α → β :=
  fun x => if x = a then b else f x

/-- The constructor: all mappings hold their Solidity defaults,
`owner = msg.sender`. -/
def initState (self deployer : Addr) : ContractState where
  self := self
  owner := deployer
  isProvider := fun _ => false
  paused := false
  cooldownSeconds := 0
  lastSubmissionTime := fun _ => 0
  lastDecryptionRequestTime := fun _ => 0
  currentBatchId := 0
  isBatchOpen := fun _ => false
  encryptedDataBatches := fun _ => []
  decryptionContexts := fun _ => ⟨0, B32.zero, false⟩

abbrev CallResult := Except Err (ContractState × List Event)

def transferOwnership (s : ContractState) (caller newOwner : Addr) : CallResult :=
  if caller ≠ s.owner then .error .NotOwner
  else .ok ({ s with owner := newOwner }, [.OwnershipTransferred s.owner newOwner])

def addProvider (s : ContractState) (caller provider : Addr) : CallResult :=
  if caller ≠ s.owner then .error .NotOwner
  else if provider = 0 then .error .InvalidParameter
  else .ok ({ s with isProvider := updF s.isProvider provider true }, [.ProviderAdded provider])

def removeProvider (s : ContractState) (caller provider : Addr) : CallResult :=
  if caller ≠ s.owner then .error .NotOwner
  else if s.isProvider provider = false then .error .InvalidParameter
  else .ok ({ s with isProvider := updF s.isProvider provider false }, [.ProviderRemoved provider])

def setPaused (s : ContractState) (caller : Addr) (p : Bool) : CallResult :=
  if caller ≠ s.owner then .error .NotOwner
  else .ok ({ s with paused := p }, [.PauseToggled p])

def setCooldownSeconds (s : ContractState) (caller : Addr) (c : Nat) : CallResult :=
  if caller ≠ s.owner then .error .NotOwner
  else .ok ({ s with cooldownSeconds := c }, [.CooldownSecondsSet s.cooldownSeconds c])

def openBatch (s : ContractState) (caller : Addr) : CallResult :=
  if caller ≠ s.owner then .error .NotOwner
  else if s.paused then .error .Paused
  else
    let newId := s.currentBatchId + 1
    .ok ({ s with
            currentBatchId := newId,
            isBatchOpen := updF s.isBatchOpen newId true },
         [.BatchOpened newId])

def closeBatch (s : ContractState) (caller : Addr) (batchId : Nat) : CallResult :=
  if caller ≠ s.owner then .error .NotOwner
  else if s.isBatchOpen batchId = false then .error .InvalidBatch
  else .ok ({ s with isBatchOpen := updF s.isBatchOpen batchId false }, [.BatchClosed batchId])

/-- The `submitData` loop body: for each point, `_initIfNeeded` then `push`.
A revert mid-loop discards the partial batch (EVM rollback). -/
def submitLoop (batch : List EH) : List EH → Except Err (List EH)
  | [] => .ok batch
  | p :: rest =>
    if p.isInitCk = false then .error .NotInitialized
    else submitLoop (batch ++ [p]) rest

def submitData (s : ContractState) (caller : Addr) (now : Timestamp)
    (batchId : Nat) (dataPoints : List EH) : CallResult :=
  if s.isProvider caller = false then .error .NotProvider
  else if s.paused then .error .Paused
  else if now < s.lastSubmissionTime caller + s.cooldownSeconds then .error .CooldownActive
  else if s.isBatchOpen batchId = false then .error .InvalidBatch
  else
    match submitLoop (s.encryptedDataBatches batchId) dataPoints with
    | .error e => .error e
    | .ok newBatch =>
      .ok ({ s with
              lastSubmissionTime := updF s.lastSubmissionTime caller now,
              encryptedDataBatches := updF s.encryptedDataBatches batchId newBatch },
           [.DataSubmitted caller batchId dataPoints.length])

/-- `sum = FHE.asEuint32(0); for … sum = sum.add(data[i])`. -/
def sumBatch (data : List EH) : EH := data.foldl EH.add (EH.lit 0)

/-- `sum.mul(FHE.asEuint32(1000)).div(FHE.asEuint32(data.length))`:
the scaled average, multiply before divide. -/
def aggregateOf (data : List EH) : EH :=
  EH.div (EH.mul (sumBatch data) (EH.lit 1000)) (EH.lit data.length)

/-- `_hashCiphertexts`: keccak of the handles' words together with
`address(this)`. -/
def hashCiphertexts (cts : List EH) (self : Addr) : B32 := B32.hashCts cts self

def requestDiscovery (s : ContractState) (caller : Addr) (now : Timestamp)
    (batchId requestId : Nat) : CallResult :=
  if s.isProvider caller = false then .error .NotProvider
  else if s.paused then .error .Paused
  else if now < s.lastDecryptionRequestTime caller + s.cooldownSeconds then .error .CooldownActive
  else if s.isBatchOpen batchId then .error .InvalidBatch
  else if (s.encryptedDataBatches batchId).length = 0 then .error .InvalidBatch
  else
    let data := s.encryptedDataBatches batchId
    let average := aggregateOf data
    let stateHash := hashCiphertexts [average] s.self
    .ok ({ s with
            lastDecryptionRequestTime := updF s.lastDecryptionRequestTime caller now,
            decryptionContexts := updF s.decryptionContexts requestId ⟨batchId, stateHash, false⟩ },
         [.DecryptionRequested requestId batchId])

/-- `abi.decode(cleartexts, (uint256))`: the first word of the payload. -/
def abiDecodeUint (b : Bytes) : Nat := b.headD 0

/-- `myCallback`.  `checkSigs` is the external `FHE.checkSignatures`;
`caller` is `msg.sender`, which the source never reads (the function is
`public` with no access modifier). -/
def myCallback (checkSigs : Nat → Bytes → Bytes → Bool) (s : ContractState)
    (caller : Addr) (requestId : Nat) (cleartexts proof : Bytes) : CallResult :=
  if (s.decryptionContexts requestId).processed then .error .ReplayDetected
  else
    let batchId := (s.decryptionContexts requestId).batchId
    let data := s.encryptedDataBatches batchId
    let average := aggregateOf data
    let currentHash := hashCiphertexts [average] s.self
    if currentHash ≠ (s.decryptionContexts requestId).stateHash then .error .StateMismatch
    else if checkSigs requestId cleartexts proof = false then .error .InvalidProof
    else
      let result := abiDecodeUint cleartexts
      let ctx := s.decryptionContexts requestId
      .ok ({ s with
              decryptionContexts := updF s.decryptionContexts requestId
                { ctx with processed := true } },
           [.DecryptionCompleted requestId batchId result])

/-- One external call with its arguments (the oracle-supplied inputs
included). -/
inductive Op
  | transferOwnership (caller newOwner : Addr)
  | addProvider (caller provider : Addr)
  | removeProvider (caller provider : Addr)
  | setPaused (caller : Addr) (p : Bool)
  | setCooldownSeconds (caller : Addr) (c : Nat)
  | openBatch (caller : Addr)
  | closeBatch (caller : Addr) (batchId : Nat)
  | submitData (caller : Addr) (now : Timestamp) (batchId : Nat) (dataPoints : List EH)
  | requestDiscovery (caller : Addr) (now : Timestamp) (batchId requestId : Nat)
  | myCallback (checkSigs : Nat → Bytes → Bytes → Bool) (caller : Addr)
      (requestId : Nat) (cleartexts proof : Bytes)

def applyOp (s : ContractState) : Op → CallResult
  | .transferOwnership c n => transferOwnership s c n
  | .addProvider c p => addProvider s c p
  | .removeProvider c p => removeProvider s c p
  | .setPaused c p => setPaused s c p
  | .setCooldownSeconds c k => setCooldownSeconds s c k
  | .openBatch c => openBatch s c
  | .closeBatch c b => closeBatch s c b
  | .submitData c now b d => submitData s c now b d
  | .requestDiscovery c now b r => requestDiscovery s c now b r
  | .myCallback cs c r ct pf => myCallback cs s c r ct pf

/-- Transaction semantics: a revert leaves the state unchanged. -/
def exec (s : ContractState) (op : Op) : ContractState :=
  match applyOp s op with
  | .ok (s', _) => s'
  | .error _ => s

def execAll (s : ContractState) (ops : List Op) : ContractState := ops.foldl exec s

/-- A call result is a success. -/
def resOk {α : Type} : Except Err α → Bool
  | .ok _ => true
  | .error _ => false

/-! Concrete demonstration states (contract at address 10, deployed by 1,
provider 2). -/

def demo0 : ContractState := initState 10 1

def demoOpen : ContractState := execAll demo0 [Op.addProvider 1 2, Op.openBatch 1]

def demoClosed : ContractState :=
  execAll demoOpen [Op.submitData 2 0 1 [EH.lit 5], Op.closeBatch 1 1]

def demoReq : ContractState := exec demoClosed (Op.requestDiscovery 2 0 1 7)

def demoCd : ContractState := exec demoOpen (Op.setCooldownSeconds 1 10)

/-- A state whose context 5 is already processed. -/
def demoProcessed : ContractState :=
  { demo0 with
      decryptionContexts := updF demo0.decryptionContexts 5 ⟨1, B32.zero, true⟩ }

/-- A state whose context 7 binds a digest unrelated to batch 1's data. -/
def demoBadHash : ContractState :=
  { demo0 with
      decryptionContexts :=
        updF demo0.decryptionContexts 7 ⟨1, B32.hashCts [EH.lit 99] 10, false⟩ }

/-- `op` is not a `requestDiscovery` for the request id `rid`.
`requestDiscovery` writes a fresh unprocessed context at its (oracle-chosen)
`requestId`, so processed contexts are stable across operation sequences in
which the oracle never reuses the id — which it guarantees. -/
def avoidsRid (rid : Nat) : Op → Prop
  | .requestDiscovery _ _ _ r => r ≠ rid
  | _ => True

/-- Every open batch id has already been allocated. -/
def BatchesBounded (s : ContractState) : Prop :=
  ∀ id, s.isBatchOpen id = true → id ≤ s.currentBatchId

/-- Batch `id` is closed and its id already allocated. -/
def ClosedStable (id : Nat) (s : ContractState) : Prop :=
  s.isBatchOpen id = false ∧ id ≤ s.currentBatchId

/-! Basic lemmas about mapping updates and the loop of `submitData`. -/

theorem updF_self {α β : Type} [DecidableEq α] (f : α → β) (a : α) (b : β) :
    updF f a b a = b := by simp [updF]

theorem updF_ne {α β : Type} [DecidableEq α] (f : α → β) {x a : α} (b : β)
    (h : x ≠ a) : updF f a b x = f x := by simp [updF, h]

theorem submitLoop_ok (pts : List EH) :
    ∀ batch, (∀ v ∈ pts, v.isInitCk = true) → submitLoop batch pts = .ok (batch ++ pts) := by
  induction pts with
  | nil => intro batch _; simp [submitLoop]
  | cons p rest ih =>
    intro batch h
    have hp : p.isInitCk = true := h p (List.mem_cons_self p rest)
    have hrest : ∀ v ∈ rest, v.isInitCk = true := fun v hv => h v (List.mem_cons_of_mem p hv)
    simp [submitLoop, hp, ih (batch ++ [p]) hrest]

theorem submitLoop_err (pts : List EH) :
    ∀ batch, (∃ v ∈ pts, v.isInitCk = false) → submitLoop batch pts = .error .NotInitialized := by
  induction pts with
  | nil => intro batch h; simp at h
  | cons p rest ih =>
    intro batch h
    by_cases hp : p.isInitCk = false
    · simp [submitLoop, hp]
    · have hp' : p.isInitCk = true := by
        cases hpc : p.isInitCk with
        | false => exact absurd hpc hp
        | true => rfl
      rcases h with ⟨v, hv, hvf⟩
      rcases List.mem_cons.mp hv with rfl | hvrest
      · exact absurd hvf hp
      · simp [submitLoop, hp', ih (batch ++ [p]) ⟨v, hvrest, hvf⟩]

/-! Stability of a processed decryption context across operations. -/

theorem exec_of_error {s : ContractState} {op : Op} {e : Err}
    (h : applyOp s op = .error e) : exec s op = s := by
  simp [exec, h]

theorem exec_of_ok {s : ContractState} {op : Op} {s' : ContractState} {ev : List Event}
    (h : applyOp s op = .ok (s', ev)) : exec s op = s' := by
  simp [exec, h]

theorem processed_stable (s : ContractState) (rid : Nat) (op : Op)
    (hav : avoidsRid rid op)
    (h : (s.decryptionContexts rid).processed = true) :
    ((exec s op).decryptionContexts rid).processed = true := by
  rcases hres : applyOp s op with e | ⟨s', ev⟩
  · rw [exec_of_error hres]; exact h
  · rw [exec_of_ok hres]
    cases op with
    | transferOwnership c n =>
      simp only [applyOp, transferOwnership] at hres
      split at hres
      · exact absurd hres (by simp)
      · cases hres; exact h
    | addProvider c p =>
      simp only [applyOp, addProvider] at hres
      split at hres
      · exact absurd hres (by simp)
      · split at hres
        · exact absurd hres (by simp)
        · cases hres; exact h
    | removeProvider c p =>
      simp only [applyOp, removeProvider] at hres
      split at hres
      · exact absurd hres (by simp)
      · split at hres
        · exact absurd hres (by simp)
        · cases hres; exact h
    | setPaused c p =>
      simp only [applyOp, setPaused] at hres
      split at hres
      · exact absurd hres (by simp)
      · cases hres; exact h
    | setCooldownSeconds c k =>
      simp only [applyOp, setCooldownSeconds] at hres
      split at hres
      · exact absurd hres (by simp)
      · cases hres; exact h
    | openBatch c =>
      simp only [applyOp, openBatch] at hres
      split at hres
      · exact absurd hres (by simp)
      · split at hres
        · exact absurd hres (by simp)
        · cases hres; exact h
    | closeBatch c b =>
      simp only [applyOp, closeBatch] at hres
      split at hres
      · exact absurd hres (by simp)
      · split at hres
        · exact absurd hres (by simp)
        · cases hres; exact h
    | submitData c now b d =>
      simp only [applyOp, submitData] at hres
      split at hres
      · exact absurd hres (by simp)
      · split at hres
        · exact absurd hres (by simp)
        · split at hres
          · exact absurd hres (by simp)
          · split at hres
            · exact absurd hres (by simp)
            · split at hres
              · exact absurd hres (by simp)
              · cases hres; exact h
    | requestDiscovery c now b r =>
      have hr : r ≠ rid := hav
      simp only [applyOp, requestDiscovery] at hres
      split at hres
      · exact absurd hres (by simp)
      · split at hres
        · exact absurd hres (by simp)
        · split at hres
          · exact absurd hres (by simp)
          · split at hres
            · exact absurd hres (by simp)
            · split at hres
              · exact absurd hres (by simp)
              · cases hres
                simpa [updF, Ne.symm hr] using h
    | myCallback cs c r ct pf =>
      simp only [applyOp, myCallback] at hres
      split at hres
      · exact absurd hres (by simp)
      · split at hres
        · exact absurd hres (by simp)
        · split at hres
          · exact absurd hres (by simp)
          · cases hres
            by_cases hr : rid = r
            · subst hr; simp [updF]
            · simpa [updF, hr] using h

theorem processed_stable_all (s : ContractState) (rid : Nat) (ops : List Op)
    (hav : ∀ op ∈ ops, avoidsRid rid op)
    (h : (s.decryptionContexts rid).processed = true) :
    ((execAll s ops).decryptionContexts rid).processed = true := by
  induction ops generalizing s with
  | nil => exact h
  | cons op rest ih =>
    have h1 := processed_stable s rid op (hav op (List.mem_cons_self op rest)) h
    exact ih (exec s op) (fun o ho => hav o (List.mem_cons_of_mem op ho)) h1

/-! Closed batches stay closed: every open batch id is at most
`currentBatchId` (so `openBatch`, which opens `currentBatchId + 1`, can never
touch an already-allocated id), and no operation sets an open flag back to
true except `openBatch` on the fresh id. -/

theorem batchesBounded_init (self deployer : Addr) :
    BatchesBounded (initState self deployer) := by
  intro id h
  simp [initState] at h

theorem closedStable_exec (id : Nat) (s : ContractState) (op : Op)
    (h : ClosedStable id s) : ClosedStable id (exec s op) := by
  obtain ⟨hcl, hle⟩ := h
  rcases hres : applyOp s op with e | ⟨s', ev⟩
  · rw [exec_of_error hres]; exact ⟨hcl, hle⟩
  · rw [exec_of_ok hres]
    cases op with
    | transferOwnership c n =>
      simp only [applyOp, transferOwnership] at hres
      split at hres
      · exact absurd hres (by simp)
      · cases hres; exact ⟨hcl, hle⟩
    | addProvider c p =>
      simp only [applyOp, addProvider] at hres
      split at hres
      · exact absurd hres (by simp)
      · split at hres
        · exact absurd hres (by simp)
        · cases hres; exact ⟨hcl, hle⟩
    | removeProvider c p =>
      simp only [applyOp, removeProvider] at hres
      split at hres
      · exact absurd hres (by simp)
      · split at hres
        · exact absurd hres (by simp)
        · cases hres; exact ⟨hcl, hle⟩
    | setPaused c p =>
      simp only [applyOp, setPaused] at hres
      split at hres
      · exact absurd hres (by simp)
      · cases hres; exact ⟨hcl, hle⟩
    | setCooldownSeconds c k =>
      simp only [applyOp, setCooldownSeconds] at hres
      split at hres
      · exact absurd hres (by simp)
      · cases hres; exact ⟨hcl, hle⟩
    | openBatch c =>
      simp only [applyOp, openBatch] at hres
      split at hres
      · exact absurd hres (by simp)
      · split at hres
        · exact absurd hres (by simp)
        · cases hres
          refine ⟨?_, by simp; omega⟩
          have hne : id ≠ s.currentBatchId + 1 := by omega
          simpa [updF, hne] using hcl
    | closeBatch c b =>
      simp only [applyOp, closeBatch] at hres
      split at hres
      · exact absurd hres (by simp)
      · split at hres
        · exact absurd hres (by simp)
        · cases hres
          refine ⟨?_, hle⟩
          by_cases hb : id = b
          · simp [updF, hb]
          · simpa [updF, hb] using hcl
    | submitData c now b d =>
      simp only [applyOp, submitData] at hres
      split at hres
      · exact absurd hres (by simp)
      · split at hres
        · exact absurd hres (by simp)
        · split at hres
          · exact absurd hres (by simp)
          · split at hres
            · exact absurd hres (by simp)
            · split at hres
              · exact absurd hres (by simp)
              · cases hres; exact ⟨hcl, hle⟩
    | requestDiscovery c now b r =>
      simp only [applyOp, requestDiscovery] at hres
      split at hres
      · exact absurd hres (by simp)
      · split at hres
        · exact absurd hres (by simp)
        · split at hres
          · exact absurd hres (by simp)
          · split at hres
            · exact absurd hres (by simp)
            · split at hres
              · exact absurd hres (by simp)
              · cases hres; exact ⟨hcl, hle⟩
    | myCallback cs c r ct pf =>
      simp only [applyOp, myCallback] at hres
      split at hres
      · exact absurd hres (by simp)
      · split at hres
        · exact absurd hres (by simp)
        · split at hres
          · exact absurd hres (by simp)
          · cases hres; exact ⟨hcl, hle⟩

theorem closedStable_execAll (id : Nat) (s : ContractState) (ops : List Op)
    (h : ClosedStable id s) : ClosedStable id (execAll s ops) := by
  induction ops generalizing s with
  | nil => exact h
  | cons op rest ih => exact ih (exec s op) (closedStable_exec id s op h)

/-- `submitData` on a closed batch never succeeds, and reverts with
`InvalidBatch` once the provider / pause / cooldown gates pass. -/
theorem submitData_closed (s : ContractState) (c : Addr) (now : Timestamp)
    (bid : Nat) (data : List EH) (h : s.isBatchOpen bid = false) :
    resOk (submitData s c now bid data) = false ∧
    (s.isProvider c = true → s.paused = false →
      s.lastSubmissionTime c + s.cooldownSeconds ≤ now →
      submitData s c now bid data = .error .InvalidBatch) := by
  constructor
  · unfold submitData
    split
    · rfl
    · split
      · rfl
      · split
        · rfl
        · simp [h, resOk]
  · intro hp hpa hcd
    simp [submitData, hp, hpa, h, Nat.not_lt.mpr hcd]

/-- A processed context makes `myCallback` revert with `ReplayDetected`. -/
theorem myCallback_replay (checkSigs : Nat → Bytes → Bytes → Bool)
    (s : ContractState) (caller : Addr) (rid : Nat) (ct pf : Bytes)
    (h : (s.decryptionContexts rid).processed = true) :
    myCallback checkSigs s caller rid ct pf = .error .ReplayDetected := by
  simp [myCallback, h]

theorem submitLoop_ok_inv (pts : List EH) :
    ∀ batch nb, submitLoop batch pts = .ok nb → nb = batch ++ pts := by
  induction pts with
  | nil =>
    intro batch nb h
    simp [submitLoop] at h
    simp [h]
  | cons p rest ih =>
    intro batch nb h
    unfold submitLoop at h
    split at h
    · exact absurd h (by simp)
    · have := ih (batch ++ [p]) nb h
      simpa using this

/-- Inversion of a successful `submitData`: all four gates passed, and the
result appends exactly the supplied points. -/
theorem submitData_ok_inv {s : ContractState} {c : Addr} {now : Timestamp}
    {bid : Nat} {data : List EH} {s' : ContractState} {ev : List Event}
    (h : submitData s c now bid data = .ok (s', ev)) :
    s.isProvider c = true ∧ s.paused = false ∧
    s.lastSubmissionTime c + s.cooldownSeconds ≤ now ∧ s.isBatchOpen bid = true ∧
    s' = { s with
            lastSubmissionTime := updF s.lastSubmissionTime c now,
            encryptedDataBatches := updF s.encryptedDataBatches bid
              (s.encryptedDataBatches bid ++ data) } ∧
    ev = [.DataSubmitted c bid data.length] := by
  unfold submitData at h
  split at h
  · exact absurd h (by simp)
  · split at h
    · exact absurd h (by simp)
    · split at h
      · exact absurd h (by simp)
      · split at h
        · exact absurd h (by simp)
        · rename_i hprov hpaused hcool hopen
          split at h
          · exact absurd h (by simp)
          · rename_i newBatch hloop
            have hnb := submitLoop_ok_inv data (s.encryptedDataBatches bid) newBatch hloop
            cases h
            refine ⟨?_, ?_, ?_, ?_, ?_, rfl⟩
            · cases hpc : s.isProvider c with
              | false => exact absurd hpc hprov
              | true => rfl
            · cases hpc : s.paused with
              | false => rfl
              | true => exact absurd hpc hpaused
            · exact Nat.le_of_not_lt hcool
            · cases hbc : s.isBatchOpen bid with
              | false => exact absurd hbc hopen
              | true => rfl
            · rw [hnb]

theorem hashCiphertexts_ne_zero (cts : List EH) (self : Addr) :
    hashCiphertexts cts self ≠ B32.zero := fun h => B32.noConfusion h

theorem submitLoop_error_inv (pts : List EH) :
    ∀ batch e, submitLoop batch pts = .error e → e = .NotInitialized := by
  induction pts with
  | nil => intro b e h; simp [submitLoop] at h
  | cons p rest ih =>
    intro b e h
    unfold submitLoop at h
    split at h
    · cases h; rfl
    · exact ih _ e h

/-- Inside `submitData`, `CooldownActive` is raised exactly on an active
cooldown, once the provider and pause gates pass. -/
theorem submitData_cooldown_iff (s : ContractState) (c : Addr) (now : Timestamp)
    (bid : Nat) (data : List EH)
    (hp : s.isProvider c = true) (hpa : s.paused = false) :
    submitData s c now bid data = .error .CooldownActive ↔
      now < s.lastSubmissionTime c + s.cooldownSeconds := by
  constructor
  · intro h
    by_cases hlt : now < s.lastSubmissionTime c + s.cooldownSeconds
    · exact hlt
    · exfalso
      simp only [submitData, hp, hpa] at h
      rw [if_neg (by simp)] at h
      rw [if_neg (by simp)] at h
      rw [if_neg hlt] at h
      split at h
      · exact absurd h (by simp)
      · split at h
        · rename_i e hloop
          have he := submitLoop_error_inv data _ e hloop
          subst he
          exact absurd h (by simp)
        · exact absurd h (by simp)
  · intro hlt
    simp [submitData, hp, hpa, hlt]

/-- C1: the claim says a callback for a `requestId` with no stored context is
rejected with `ReplayDetected`.  It is not: the replay check only reads the
`processed` flag, and an absent context has the Solidity default
`processed = false`, so the check passes; on the fresh state the call then
fails with `StateMismatch` instead. -/
theorem C1_counterexample :
    ((initState 10 1).decryptionContexts 42).processed = false ∧
    myCallback (fun _ _ _ => true) (initState 10 1) 0 42 [] [] = .error .StateMismatch ∧
    myCallback (fun _ _ _ => true) (initState 10 1) 0 42 [] [] ≠ .error .ReplayDetected := by
  refine ⟨rfl, rfl, ?_⟩
  intro hcontra
  injection hcontra with h3
  cases h3

/-- C1 (amended): `myCallback` fails with `ReplayDetected` exactly when the
stored context's `processed` flag is already true; context existence is not
checked.  A `requestId` that was never issued has the default context
(`processed = false`), passes the replay check, and is rejected with
`StateMismatch` instead, because its stored `stateHash` is the zero word,
which never equals a computed digest. -/
theorem C1_replay_check_amended (checkSigs : Nat → Bytes → Bytes → Bool)
    (s : ContractState) (caller : Addr) (rid : Nat) (ct pf : Bytes) :
    (myCallback checkSigs s caller rid ct pf = .error .ReplayDetected ↔
      (s.decryptionContexts rid).processed = true) ∧
    (s.decryptionContexts rid = ⟨0, B32.zero, false⟩ →
      myCallback checkSigs s caller rid ct pf = .error .StateMismatch) := by
  by_cases hp : (s.decryptionContexts rid).processed = true
  · constructor
    · simp [myCallback, hp]
    · intro hctx
      rw [hctx] at hp
      simp at hp
  · replace hp : (s.decryptionContexts rid).processed = false := by
      revert hp; cases (s.decryptionContexts rid).processed <;> simp
    constructor
    · by_cases hm : hashCiphertexts
          [aggregateOf (s.encryptedDataBatches (s.decryptionContexts rid).batchId)] s.self
          ≠ (s.decryptionContexts rid).stateHash
      · simp [myCallback, hp, hm]
      · by_cases hc : checkSigs rid ct pf = false
        · simp [myCallback, hp, hm, hc]
        · simp [myCallback, hp, hm, hc]
    · intro hctx
      have hm : hashCiphertexts
          [aggregateOf (s.encryptedDataBatches (s.decryptionContexts rid).batchId)] s.self
          ≠ (s.decryptionContexts rid).stateHash := by
        rw [show (s.decryptionContexts rid).stateHash = B32.zero by rw [hctx]]
        exact hashCiphertexts_ne_zero _ _
      simp [myCallback, hp, hm]

/-- C1 (amended) witness: a processed context is rejected with
`ReplayDetected`; on the fresh state, request id 42 (never issued) is
rejected with `StateMismatch`. -/
theorem C1_replay_check_amended_witness :
    myCallback (fun _ _ _ => true) demoProcessed 0 5 [] [] = .error .ReplayDetected ∧
    myCallback (fun _ _ _ => true) demo0 0 42 [] [] = .error .StateMismatch :=
  ⟨(C1_replay_check_amended (fun _ _ _ => true) demoProcessed 0 5 [] []).1.mpr rfl,
   (C1_replay_check_amended (fun _ _ _ => true) demo0 0 42 [] []).2 rfl⟩

/-- C2: once `myCallback` has completed successfully for a `requestId`, every
later call with the same `requestId` fails with `ReplayDetected`, whatever
the cleartexts, proof, verifier verdict, caller, or intervening operations
(provided the oracle keeps request ids unique, i.e. no later
`requestDiscovery` reuses this id). -/
theorem C2_single_use_decryption (checkSigs : Nat → Bytes → Bytes → Bool)
    (s : ContractState) (caller : Addr) (rid : Nat) (ct pf : Bytes)
    (hok : resOk (myCallback checkSigs s caller rid ct pf) = true)
    (ops : List Op) (hav : ∀ op ∈ ops, avoidsRid rid op)
    (checkSigs2 : Nat → Bytes → Bytes → Bool) (caller2 : Addr) (ct2 pf2 : Bytes) :
    myCallback checkSigs2
      (execAll (exec s (Op.myCallback checkSigs caller rid ct pf)) ops)
      caller2 rid ct2 pf2 = .error .ReplayDetected := by
  have h1 : ((exec s (Op.myCallback checkSigs caller rid ct pf)).decryptionContexts rid).processed
      = true := by
    by_cases hp : (s.decryptionContexts rid).processed = true
    · rw [myCallback_replay checkSigs s caller rid ct pf hp] at hok
      simp [resOk] at hok
    · replace hp : (s.decryptionContexts rid).processed = false := by
        revert hp; cases (s.decryptionContexts rid).processed <;> simp
      by_cases hm : hashCiphertexts
          [aggregateOf (s.encryptedDataBatches (s.decryptionContexts rid).batchId)] s.self
          ≠ (s.decryptionContexts rid).stateHash
      · have he : myCallback checkSigs s caller rid ct pf = .error .StateMismatch := by
          simp [myCallback, hp, hm]
        rw [he] at hok
        simp [resOk] at hok
      · by_cases hc : checkSigs rid ct pf = false
        · have he : myCallback checkSigs s caller rid ct pf = .error .InvalidProof := by
            simp [myCallback, hp, hm, hc]
          rw [he] at hok
          simp [resOk] at hok
        · have hde : myCallback checkSigs s caller rid ct pf =
              .ok ({ s with
                      decryptionContexts := updF s.decryptionContexts rid
                        { s.decryptionContexts rid with processed := true } },
                   [.DecryptionCompleted rid (s.decryptionContexts rid).batchId
                     (abiDecodeUint ct)]) := by
            simp [myCallback, hp, hm, hc]
          have hap : applyOp s (Op.myCallback checkSigs caller rid ct pf) =
              .ok ({ s with
                      decryptionContexts := updF s.decryptionContexts rid
                        { s.decryptionContexts rid with processed := true } },
                   [.DecryptionCompleted rid (s.decryptionContexts rid).batchId
                     (abiDecodeUint ct)]) := hde
          rw [exec_of_ok hap]
          simp [updF]
  have h2 := processed_stable_all _ rid ops hav h1
  exact myCallback_replay _ _ _ _ _ _ h2

/-- C2 witness: the demo run — batch 1 holds one value, discovery was
requested with id 7, the callback completes once; a replay after an
intervening `openBatch` is rejected with `ReplayDetected`. -/
theorem C2_single_use_decryption_witness :
    resOk (myCallback (fun _ _ _ => true) demoReq 0 7 [20000] []) = true ∧
    myCallback (fun _ _ _ => false)
      (execAll (exec demoReq (Op.myCallback (fun _ _ _ => true) 0 7 [20000] []))
        [Op.openBatch 1])
      3 7 [99] [1] = .error .ReplayDetected :=
  ⟨rfl,
   C2_single_use_decryption (fun _ _ _ => true) demoReq 0 7 [20000] [] rfl
     [Op.openBatch 1] (by intro op hop; simp at hop; subst hop; trivial)
     (fun _ _ _ => false) 3 [99] [1]⟩

/-- C3: after the replay check passes, the callback recomputes the aggregate
of the context's batch and hashes it the same way as at request time
(`requestDiscovery` stores exactly the digest of the aggregate handle with
the contract's own address); when the recomputed digest differs from the
stored `stateHash` the call reverts with `StateMismatch` and the state —
including the `processed` flag — is unchanged. -/
theorem C3_state_hash_binding :
    (∀ (s : ContractState) (c : Addr) (now : Timestamp) (bid rid : Nat)
        (s' : ContractState) (ev : List Event),
      requestDiscovery s c now bid rid = .ok (s', ev) →
      (s'.decryptionContexts rid).stateHash =
        hashCiphertexts [aggregateOf (s.encryptedDataBatches bid)] s.self ∧
      (s'.decryptionContexts rid).batchId = bid ∧
      (s'.decryptionContexts rid).processed = false) ∧
    (∀ (checkSigs : Nat → Bytes → Bytes → Bool) (s : ContractState) (caller : Addr)
        (rid : Nat) (ct pf : Bytes),
      (s.decryptionContexts rid).processed = false →
      hashCiphertexts
          [aggregateOf (s.encryptedDataBatches (s.decryptionContexts rid).batchId)] s.self
          ≠ (s.decryptionContexts rid).stateHash →
      myCallback checkSigs s caller rid ct pf = .error .StateMismatch ∧
      exec s (Op.myCallback checkSigs caller rid ct pf) = s) := by
  constructor
  · intro s c now bid rid s' ev h
    unfold requestDiscovery at h
    split at h
    · exact absurd h (by simp)
    · split at h
      · exact absurd h (by simp)
      · split at h
        · exact absurd h (by simp)
        · split at h
          · exact absurd h (by simp)
          · split at h
            · exact absurd h (by simp)
            · cases h
              simp [updF]
  · intro checkSigs s caller rid ct pf hproc hmis
    have hcb : myCallback checkSigs s caller rid ct pf = .error .StateMismatch := by
      simp [myCallback, hproc, hmis]
    exact ⟨hcb, exec_of_error hcb⟩

/-- C3 witness: on a state whose context 7 binds an alien digest, the
callback fails with `StateMismatch` and changes nothing; and the demo
`requestDiscovery` stores the digest of the aggregate handle. -/
theorem C3_state_hash_binding_witness :
    (((exec demoClosed (Op.requestDiscovery 2 0 1 7)).decryptionContexts 7).stateHash =
      hashCiphertexts [aggregateOf (demoClosed.encryptedDataBatches 1)] demoClosed.self) ∧
    myCallback (fun _ _ _ => true) demoBadHash 0 7 [] [] = .error .StateMismatch :=
  ⟨((C3_state_hash_binding.1) demoClosed 2 0 1 7
      (exec demoClosed (Op.requestDiscovery 2 0 1 7))
      [Event.DecryptionRequested 7 1] rfl).1,
   ((C3_state_hash_binding.2) (fun _ _ _ => true) demoBadHash
      0 7 [] [] rfl (by decide)).1⟩

/-- C9: `myCallback` never reads `msg.sender` (it is `public` with no access
modifier), so its outcome — the returned result and the produced state — is
identical for any two callers given the same prior state and arguments. -/
theorem C9_caller_independence (checkSigs : Nat → Bytes → Bytes → Bool)
    (s : ContractState) (c1 c2 : Addr) (rid : Nat) (ct pf : Bytes) :
    myCallback checkSigs s c1 rid ct pf = myCallback checkSigs s c2 rid ct pf ∧
    exec s (Op.myCallback checkSigs c1 rid ct pf) =
      exec s (Op.myCallback checkSigs c2 rid ct pf) :=
  ⟨rfl, rfl⟩

/-- C4: the claim says the owner is never the zero identity in any reachable
state.  It fails: `transferOwnership` does not validate `newOwner`, so the
owner can call it with the zero address and the owner becomes 0. -/
theorem C4_counterexample :
    demo0.owner = 1 ∧
    transferOwnership demo0 1 0 =
      .ok ({ demo0 with owner := 0 }, [.OwnershipTransferred 1 0]) ∧
    (exec demo0 (Op.transferOwnership 1 0)).owner = 0 := ⟨rfl, rfl, rfl⟩

/-- C4 (amended): the constructor sets the owner to the deployer (non-null
whenever the deployer is), and every operation except a
`transferOwnership` to the zero address preserves a non-null owner;
`transferOwnership` itself performs no null check, so it can null the
owner. -/
theorem C4_owner_amended :
    (∀ self deployer : Addr, (initState self deployer).owner = deployer) ∧
    (∀ (s : ContractState) (op : Op), s.owner ≠ 0 →
      (∀ c : Addr, op ≠ Op.transferOwnership c 0) → (exec s op).owner ≠ 0) := by
  refine ⟨fun _ _ => rfl, ?_⟩
  intro s op h0 hop
  rcases hres : applyOp s op with e | ⟨s', ev⟩
  · rw [exec_of_error hres]; exact h0
  · rw [exec_of_ok hres]
    cases op with
    | transferOwnership c n =>
      have hn : n ≠ 0 := by
        intro h
        subst h
        exact (hop c) rfl
      simp only [applyOp, transferOwnership] at hres
      split at hres
      · exact absurd hres (by simp)
      · cases hres; exact hn
    | addProvider c p =>
      simp only [applyOp, addProvider] at hres
      split at hres
      · exact absurd hres (by simp)
      · split at hres
        · exact absurd hres (by simp)
        · cases hres; exact h0
    | removeProvider c p =>
      simp only [applyOp, removeProvider] at hres
      split at hres
      · exact absurd hres (by simp)
      · split at hres
        · exact absurd hres (by simp)
        · cases hres; exact h0
    | setPaused c p =>
      simp only [applyOp, setPaused] at hres
      split at hres
      · exact absurd hres (by simp)
      · cases hres; exact h0
    | setCooldownSeconds c k =>
      simp only [applyOp, setCooldownSeconds] at hres
      split at hres
      · exact absurd hres (by simp)
      · cases hres; exact h0
    | openBatch c =>
      simp only [applyOp, openBatch] at hres
      split at hres
      · exact absurd hres (by simp)
      · split at hres
        · exact absurd hres (by simp)
        · cases hres; exact h0
    | closeBatch c b =>
      simp only [applyOp, closeBatch] at hres
      split at hres
      · exact absurd hres (by simp)
      · split at hres
        · exact absurd hres (by simp)
        · cases hres; exact h0
    | submitData c now b d =>
      simp only [applyOp, submitData] at hres
      split at hres
      · exact absurd hres (by simp)
      · split at hres
        · exact absurd hres (by simp)
        · split at hres
          · exact absurd hres (by simp)
          · split at hres
            · exact absurd hres (by simp)
            · split at hres
              · exact absurd hres (by simp)
              · cases hres; exact h0
    | requestDiscovery c now b r =>
      simp only [applyOp, requestDiscovery] at hres
      split at hres
      · exact absurd hres (by simp)
      · split at hres
        · exact absurd hres (by simp)
        · split at hres
          · exact absurd hres (by simp)
          · split at hres
            · exact absurd hres (by simp)
            · split at hres
              · exact absurd hres (by simp)
              · cases hres; exact h0
    | myCallback cs c r ct pf =>
      simp only [applyOp, myCallback] at hres
      split at hres
      · exact absurd hres (by simp)
      · split at hres
        · exact absurd hres (by simp)
        · split at hres
          · exact absurd hres (by simp)
          · cases hres; exact h0

/-- C4 (amended) witness: the deployed demo state has owner 1, and after a
`setPaused` operation the owner is still non-null. -/
theorem C4_owner_amended_witness :
    (initState 10 1).owner = 1 ∧ (exec demo0 (Op.setPaused 1 true)).owner ≠ 0 :=
  ⟨C4_owner_amended.1 10 1,
   C4_owner_amended.2 demo0 (Op.setPaused 1 true) (by decide)
     (fun c h => Op.noConfusion h)⟩

/-- C6: once `closeBatch(id)` succeeds (in a state where every open batch id
is allocated, as in every reachable state), batch `id` is closed in every
future state — `openBatch` only ever opens the fresh id
`currentBatchId + 1` — and every subsequent `submitData(id, …)` never
succeeds; it fails with exactly `InvalidBatch` as soon as the
provider/pause/cooldown gates pass. -/
theorem C6_closed_immutability (s : ContractState) (caller : Addr) (id : Nat)
    (s' : ContractState) (ev : List Event)
    (hb : BatchesBounded s)
    (hclose : closeBatch s caller id = .ok (s', ev)) (ops : List Op) :
    (execAll s' ops).isBatchOpen id = false ∧
    ∀ (c : Addr) (now : Timestamp) (data : List EH),
      resOk (submitData (execAll s' ops) c now id data) = false ∧
      ((execAll s' ops).isProvider c = true → (execAll s' ops).paused = false →
        (execAll s' ops).lastSubmissionTime c + (execAll s' ops).cooldownSeconds ≤ now →
        submitData (execAll s' ops) c now id data = .error .InvalidBatch) := by
  have hcs : ClosedStable id s' := by
    unfold closeBatch at hclose
    split at hclose
    · exact absurd hclose (by simp)
    · split at hclose
      · exact absurd hclose (by simp)
      · rename_i hown hopen
        have hopen' : s.isBatchOpen id = true := by
          revert hopen; cases s.isBatchOpen id <;> simp
        cases hclose
        exact ⟨updF_self _ _ _, hb id hopen'⟩
  have ht := closedStable_execAll id s' ops hcs
  exact ⟨ht.1, fun c now data => submitData_closed _ c now id data ht.1⟩

/-- C6 witness: owner closes batch 1, then opens a fresh batch (which gets
id 2); batch 1 stays closed and the provider's submit to it fails with
`InvalidBatch`. -/
theorem C6_closed_immutability_witness :
    (execAll (exec demoOpen (Op.closeBatch 1 1)) [Op.openBatch 1]).isBatchOpen 1 = false ∧
    submitData (execAll (exec demoOpen (Op.closeBatch 1 1)) [Op.openBatch 1])
      2 50 1 [EH.lit 3] = .error .InvalidBatch := by
  have hb : BatchesBounded demoOpen := by
    intro i hi
    rw [show demoOpen.isBatchOpen = updF (fun _ => false) 1 true from rfl] at hi
    rw [show demoOpen.currentBatchId = 1 from rfl]
    unfold updF at hi
    by_cases h1 : i = 1
    · omega
    · simp [h1] at hi
  have h := C6_closed_immutability demoOpen 1 1 (exec demoOpen (Op.closeBatch 1 1))
    [Event.BatchClosed 1] hb rfl [Op.openBatch 1]
  exact ⟨h.1, (h.2 2 50 [EH.lit 3]).2 rfl rfl (by decide)⟩

/-- C5: `submitData` is all-or-nothing — on any revert (NotProvider, Paused,
CooldownActive, InvalidBatch, NotInitialized) the state, in particular the
batch's value sequence, is unchanged; with the gates passed it fails with
`NotInitialized` exactly if some supplied handle is uninitialized, and
otherwise appends all supplied values and emits a `DataSubmitted`
notification carrying the count appended. -/
theorem C5_submit_all_or_nothing :
    (∀ (s : ContractState) (c : Addr) (now : Timestamp) (bid : Nat)
        (data : List EH) (e : Err),
      submitData s c now bid data = .error e →
      exec s (Op.submitData c now bid data) = s) ∧
    (∀ (s : ContractState) (c : Addr) (now : Timestamp) (bid : Nat) (data : List EH),
      s.isProvider c = true → s.paused = false →
      s.lastSubmissionTime c + s.cooldownSeconds ≤ now →
      s.isBatchOpen bid = true →
      ((∃ v ∈ data, v.isInitCk = false) →
        submitData s c now bid data = .error .NotInitialized) ∧
      ((∀ v ∈ data, v.isInitCk = true) →
        submitData s c now bid data =
          .ok ({ s with
                  lastSubmissionTime := updF s.lastSubmissionTime c now,
                  encryptedDataBatches := updF s.encryptedDataBatches bid
                    (s.encryptedDataBatches bid ++ data) },
               [.DataSubmitted c bid data.length]))) := by
  constructor
  · intro s c now bid data e h
    exact exec_of_error (show applyOp s (Op.submitData c now bid data) = .error e from h)
  · intro s c now bid data hp hpa hcd hopen
    constructor
    · intro hex
      simp [submitData, hp, hpa, hopen, Nat.not_lt.mpr hcd,
        submitLoop_err data (s.encryptedDataBatches bid) hex]
    · intro hall
      simp [submitData, hp, hpa, hopen, Nat.not_lt.mpr hcd,
        submitLoop_ok data (s.encryptedDataBatches bid) hall]

/-- C5 witness: on the open demo batch, a submission containing an
uninitialized handle reverts with `NotInitialized` leaving the state
unchanged, while a fully-initialized submission appends both values and
emits count 2. -/
theorem C5_submit_all_or_nothing_witness :
    submitData demoOpen 2 0 1 [EH.uninit] = .error .NotInitialized ∧
    exec demoOpen (Op.submitData 2 0 1 [EH.uninit]) = demoOpen ∧
    submitData demoOpen 2 0 1 [EH.lit 4, EH.lit 6] =
      .ok ({ demoOpen with
              lastSubmissionTime := updF demoOpen.lastSubmissionTime 2 0,
              encryptedDataBatches := updF demoOpen.encryptedDataBatches 1
                (demoOpen.encryptedDataBatches 1 ++ [EH.lit 4, EH.lit 6]) },
           [.DataSubmitted 2 1 2]) := by
  have ha := (C5_submit_all_or_nothing.2 demoOpen 2 0 1 [EH.uninit]
    rfl rfl (by decide) rfl).1 ⟨EH.uninit, by simp, rfl⟩
  have hb := C5_submit_all_or_nothing.1 demoOpen 2 0 1 [EH.uninit] .NotInitialized ha
  have hc := (C5_submit_all_or_nothing.2 demoOpen 2 0 1 [EH.lit 4, EH.lit 6]
    rfl rfl (by decide) rfl).2 (by decide)
  exact ⟨ha, hb, hc⟩

/-- C7: the submission rate limiter fails with `CooldownActive` exactly when
`now < lastSubmissionTime + cooldownSeconds` (gates before it passing); a
success stamps `now` as the provider's new last submission time; a rejection
leaves the timestamp (and all state) unchanged; hence of two `submitData`
calls by the same provider, with the second less than `cooldownSeconds`
after the first, the second fails with `CooldownActive`, while a second call
at least `cooldownSeconds` later does not hit the cooldown. -/
theorem C7_cooldown_check_and_stamp :
    (∀ (s : ContractState) (c : Addr) (now : Timestamp) (bid : Nat) (data : List EH),
      s.isProvider c = true → s.paused = false →
      (submitData s c now bid data = .error .CooldownActive ↔
        now < s.lastSubmissionTime c + s.cooldownSeconds)) ∧
    (∀ (s : ContractState) (c : Addr) (now : Timestamp) (bid : Nat) (data : List EH)
        (s' : ContractState) (ev : List Event),
      submitData s c now bid data = .ok (s', ev) → s'.lastSubmissionTime c = now) ∧
    (∀ (s : ContractState) (c : Addr) (now : Timestamp) (bid : Nat) (data : List EH),
      submitData s c now bid data = .error .CooldownActive →
      exec s (Op.submitData c now bid data) = s ∧
      (exec s (Op.submitData c now bid data)).lastSubmissionTime c
        = s.lastSubmissionTime c) ∧
    (∀ (s : ContractState) (c : Addr) (t1 : Timestamp) (bid : Nat) (d1 : List EH)
        (s1 : ContractState) (ev1 : List Event),
      submitData s c t1 bid d1 = .ok (s1, ev1) →
      (∀ (t2 : Timestamp) (d2 : List EH), t2 < t1 + s.cooldownSeconds →
        submitData s1 c t2 bid d2 = .error .CooldownActive) ∧
      (∀ (t2 : Timestamp) (d2 : List EH), t1 + s.cooldownSeconds ≤ t2 →
        submitData s1 c t2 bid d2 ≠ .error .CooldownActive)) := by
  refine ⟨fun s c now bid data hp hpa => submitData_cooldown_iff s c now bid data hp hpa,
    ?_, ?_, ?_⟩
  · intro s c now bid data s' ev h
    obtain ⟨_, _, _, _, hs', _⟩ := submitData_ok_inv h
    rw [hs']
    exact updF_self _ _ _
  · intro s c now bid data h
    have he := exec_of_error
      (show applyOp s (Op.submitData c now bid data) = .error .CooldownActive from h)
    exact ⟨he, by rw [he]⟩
  · intro s c t1 bid d1 s1 ev1 h
    obtain ⟨hp, hpa, hcd, hopen, hs1, hev⟩ := submitData_ok_inv h
    have hp1 : s1.isProvider c = true := by rw [hs1]; exact hp
    have hpa1 : s1.paused = false := by rw [hs1]; exact hpa
    have hcool1 : s1.lastSubmissionTime c = t1 := by rw [hs1]; exact updF_self _ _ _
    have hcs1 : s1.cooldownSeconds = s.cooldownSeconds := by rw [hs1]
    constructor
    · intro t2 d2 hlt
      refine (submitData_cooldown_iff s1 c t2 bid d2 hp1 hpa1).mpr ?_
      rw [hcool1, hcs1]
      exact hlt
    · intro t2 d2 hge hcontra
      have hlt := (submitData_cooldown_iff s1 c t2 bid d2 hp1 hpa1).mp hcontra
      rw [hcool1, hcs1] at hlt
      exact absurd hlt (Nat.not_lt.mpr hge)

/-- C7 witness: with cooldown 10, a successful submission at t=100 stamps
the provider's timestamp; a retry at t=105 fails with `CooldownActive` and
one at t=110 does not hit the cooldown. -/
theorem C7_cooldown_check_and_stamp_witness :
    (exec demoCd (Op.submitData 2 100 1 [EH.lit 5])).lastSubmissionTime 2 = 100 ∧
    submitData (exec demoCd (Op.submitData 2 100 1 [EH.lit 5])) 2 105 1 [EH.lit 6]
      = .error .CooldownActive ∧
    submitData (exec demoCd (Op.submitData 2 100 1 [EH.lit 5])) 2 110 1 [EH.lit 6]
      ≠ .error .CooldownActive := by
  have hok : submitData demoCd 2 100 1 [EH.lit 5] =
      .ok (exec demoCd (Op.submitData 2 100 1 [EH.lit 5]), [.DataSubmitted 2 1 1]) := rfl
  have h4 := C7_cooldown_check_and_stamp.2.2.2 demoCd 2 100 1 [EH.lit 5]
    (exec demoCd (Op.submitData 2 100 1 [EH.lit 5])) [.DataSubmitted 2 1 1] hok
  exact ⟨C7_cooldown_check_and_stamp.2.1 demoCd 2 100 1 [EH.lit 5]
      (exec demoCd (Op.submitData 2 100 1 [EH.lit 5])) [.DataSubmitted 2 1 1] hok,
    h4.1 105 [EH.lit 6] (by decide),
    h4.2 110 [EH.lit 6] (by decide)⟩

/-- C8: the claim says the aggregate recomputation in the callback also
fails with `InvalidBatch` on a zero-value batch.  It does not: `myCallback`
has no zero-value check.  With request id 99 never issued, the context's
default `batchId` 0 names a batch with zero values, yet the callback fails
with `StateMismatch`, not `InvalidBatch`. -/
theorem C8_counterexample :
    demo0.encryptedDataBatches ((demo0.decryptionContexts 99).batchId) = [] ∧
    myCallback (fun _ _ _ => true) demo0 0 99 [] [] = .error .StateMismatch ∧
    myCallback (fun _ _ _ => true) demo0 0 99 [] [] ≠ .error .InvalidBatch := by
  refine ⟨rfl, rfl, ?_⟩
  intro h
  injection h with h2
  cases h2

/-- C8 (amended): `requestDiscovery` fails with `InvalidBatch` on a
zero-value (closed) batch and otherwise binds the digest of the aggregate
`sum * 1000 / count` — multiply before divide — into the stored context;
the callback recomputes the same formula but performs no zero-value check
and never fails with `InvalidBatch`. -/
theorem C8_aggregate_amended :
    (∀ (s : ContractState) (c : Addr) (now : Timestamp) (bid rid : Nat),
      s.isProvider c = true → s.paused = false →
      s.lastDecryptionRequestTime c + s.cooldownSeconds ≤ now →
      s.isBatchOpen bid = false →
      (s.encryptedDataBatches bid = [] →
        requestDiscovery s c now bid rid = .error .InvalidBatch) ∧
      (s.encryptedDataBatches bid ≠ [] →
        requestDiscovery s c now bid rid =
          .ok ({ s with
                  lastDecryptionRequestTime := updF s.lastDecryptionRequestTime c now,
                  decryptionContexts := updF s.decryptionContexts rid
                    ⟨bid, hashCiphertexts [aggregateOf (s.encryptedDataBatches bid)] s.self,
                      false⟩ },
               [.DecryptionRequested rid bid]))) ∧
    (∀ data : List EH,
      aggregateOf data = EH.div (EH.mul (sumBatch data) (EH.lit 1000)) (EH.lit data.length)) ∧
    (∀ (checkSigs : Nat → Bytes → Bytes → Bool) (s : ContractState) (caller : Addr)
        (rid : Nat) (ct pf : Bytes),
      myCallback checkSigs s caller rid ct pf ≠ .error .InvalidBatch) := by
  refine ⟨?_, fun _ => rfl, ?_⟩
  · intro s c now bid rid hp hpa hcd hclosed
    constructor
    · intro hempty
      simp [requestDiscovery, hp, hpa, Nat.not_lt.mpr hcd, hclosed, hempty]
    · intro hne
      simp [requestDiscovery, hp, hpa, Nat.not_lt.mpr hcd, hclosed,
        List.length_eq_zero, hne]
  · intro checkSigs s caller rid ct pf h
    by_cases hp : (s.decryptionContexts rid).processed = true
    · rw [myCallback_replay _ _ _ _ _ _ hp] at h
      exact absurd h (by simp)
    · replace hp : (s.decryptionContexts rid).processed = false := by
        revert hp; cases (s.decryptionContexts rid).processed <;> simp
      by_cases hm : hashCiphertexts
          [aggregateOf (s.encryptedDataBatches (s.decryptionContexts rid).batchId)] s.self
          ≠ (s.decryptionContexts rid).stateHash
      · have he : myCallback checkSigs s caller rid ct pf = .error .StateMismatch := by
          simp [myCallback, hp, hm]
        rw [he] at h
        exact absurd h (by simp)
      · by_cases hc : checkSigs rid ct pf = false
        · have he : myCallback checkSigs s caller rid ct pf = .error .InvalidProof := by
            simp [myCallback, hp, hm, hc]
          rw [he] at h
          exact absurd h (by simp)
        · have he : myCallback checkSigs s caller rid ct pf =
              .ok ({ s with
                      decryptionContexts := updF s.decryptionContexts rid
                        { s.decryptionContexts rid with processed := true } },
                   [.DecryptionCompleted rid (s.decryptionContexts rid).batchId
                     (abiDecodeUint ct)]) := by
            simp [myCallback, hp, hm, hc]
          rw [he] at h
          exact absurd h (by simp)

/-- C8 (amended) witness: discovery on the closed empty batch 1 fails with
`InvalidBatch`; on the closed one-value demo batch it succeeds and stores
the digest of the scaled-average handle; and a callback for the never-issued
id 99 does not produce `InvalidBatch`. -/
theorem C8_aggregate_amended_witness :
    requestDiscovery (exec demoOpen (Op.closeBatch 1 1)) 2 0 1 8 = .error .InvalidBatch ∧
    requestDiscovery demoClosed 2 0 1 7 =
      .ok ({ demoClosed with
              lastDecryptionRequestTime := updF demoClosed.lastDecryptionRequestTime 2 0,
              decryptionContexts := updF demoClosed.decryptionContexts 7
                ⟨1, hashCiphertexts [aggregateOf (demoClosed.encryptedDataBatches 1)]
                    demoClosed.self, false⟩ },
           [.DecryptionRequested 7 1]) ∧
    myCallback (fun _ _ _ => true) demo0 0 99 [] [] ≠ .error .InvalidBatch :=
  ⟨(C8_aggregate_amended.1 (exec demoOpen (Op.closeBatch 1 1)) 2 0 1 8
      rfl rfl (by decide) rfl).1 rfl,
   (C8_aggregate_amended.1 demoClosed 2 0 1 7 rfl rfl (by decide) rfl).2 (by decide),
   C8_aggregate_amended.2.2 (fun _ _ _ => true) demo0 0 99 [] []⟩

/-- C10: a provider's `submitData` with an empty values array on an open
batch, unpaused and off-cooldown, succeeds: it appends nothing (every
batch's value sequence is unchanged), stamps the provider's
submission-cooldown timestamp with `now`, and emits a `DataSubmitted`
notification with count 0. -/
theorem C10_empty_submission (s : ContractState) (c : Addr) (now : Timestamp) (bid : Nat)
    (hp : s.isProvider c = true) (hpa : s.paused = false)
    (hcd : s.lastSubmissionTime c + s.cooldownSeconds ≤ now)
    (hopen : s.isBatchOpen bid = true) :
    submitData s c now bid [] =
      .ok ({ s with
              lastSubmissionTime := updF s.lastSubmissionTime c now,
              encryptedDataBatches := updF s.encryptedDataBatches bid
                (s.encryptedDataBatches bid) },
           [.DataSubmitted c bid 0]) ∧
    (∀ b, updF s.encryptedDataBatches bid (s.encryptedDataBatches bid) b
        = s.encryptedDataBatches b) ∧
    updF s.lastSubmissionTime c now c = now := by
  refine ⟨?_, ?_, updF_self _ _ _⟩
  · simp [submitData, hp, hpa, hopen, Nat.not_lt.mpr hcd, submitLoop]
  · intro b
    unfold updF
    by_cases hb : b = bid
    · subst hb; simp
    · simp [hb]

/-- C10 witness: the provider submits an empty array to the open demo batch
at t=0 and the call succeeds with count 0, leaving batch 1's values
unchanged. -/
theorem C10_empty_submission_witness :
    submitData demoOpen 2 0 1 [] =
      .ok ({ demoOpen with
              lastSubmissionTime := updF demoOpen.lastSubmissionTime 2 0,
              encryptedDataBatches := updF demoOpen.encryptedDataBatches 1
                (demoOpen.encryptedDataBatches 1) },
           [.DataSubmitted 2 1 0]) ∧
    updF demoOpen.encryptedDataBatches 1 (demoOpen.encryptedDataBatches 1) 1
      = demoOpen.encryptedDataBatches 1 := by
  have h := C10_empty_submission demoOpen 2 0 1 rfl rfl (by decide) rfl
  exact ⟨h.1, h.2.1 1⟩

end AIDiscoveryFHE
